import Mathlib

/-!
Verification of the trading-arena paper-trading engine.

A shallow embedding of the Python sources `paper_trader.py`, `agent_factory.py`,
`arena.py` and `evolution_engine.py`.  Money amounts, prices, quantities and
strategy parameters are modelled as exact rationals (the Python code uses
floats; all claims here are about the algebra of the code, not about rounding).
Python dicts keyed by symbol are modelled as association lists preserving
insertion order.  Wall-clock fields (entry_time, hold_time, timestamps) are
not modelled.  Market-data access (`get_price`) is modelled by passing the
lookup result, an `Option ℚ` (`none` = unavailable), explicitly; Python's
`if not price:` treats both `None` and `0.0` as unavailable.
-/

namespace TradingArena

/-- A position record, as built by `PaperTrader.execute_entry`
(`paper_trader.py`).  The `entry_time` field is omitted (wall clock). -/
structure Position where
  symbol : String
  direction : String
  qty : ℚ
  entry_price : ℚ
  leverage : ℚ
  margin : ℚ
  notional_value : ℚ
  unrealized_pnl : ℚ
  reason : String
deriving Repr, DecidableEq

/-- A trade-log record (`agent.trades` entries).  `entry` mirrors the ENTRY
dict, `exitRec` the EXIT dict of `paper_trader.py`; the `time` and
`hold_time` fields are omitted (wall clock). -/
inductive Trade where
  | entry (symbol direction : String) (price qty leverage margin : ℚ) (reason : String)
  | exitRec (symbol direction : String) (entry_price exit_price qty pnl pnl_pct : ℚ)
      (reason : String)
deriving Repr, DecidableEq

/-- Python's `t.get("pnl", 0)`: ENTRY records carry no `pnl` key, so the
default `0` is returned for them. -/
def Trade.pnlGetD : Trade → ℚ
  | .entry _ _ _ _ _ _ _ => 0
  | .exitRec _ _ _ _ _ pnl _ _ => pnl

/-- Python's `t.get("pnl")`: the pnl field when present. -/
def Trade.pnlOpt : Trade → Option ℚ
  | .entry _ _ _ _ _ _ _ => none
  | .exitRec _ _ _ _ _ pnl _ _ => some pnl

/-- Python's `t.get("pnl_pct")`: the pnl_pct field when present. -/
def Trade.pnlPctOpt : Trade → Option ℚ
  | .entry _ _ _ _ _ _ _ => none
  | .exitRec _ _ _ _ _ _ pnl_pct _ => some pnl_pct

/-- The mutable state of a `TradingAgent` (`agent_factory.py`) used by the
trading engine: cash, the positions dict (insertion-ordered association
list) and the trade log. -/
structure TradingAgent where
  name : String
  starting_capital : ℚ
  cash : ℚ
  positions : List (String × Position)
  trades : List Trade
deriving Repr, DecidableEq

/-- Dict read: `agent.positions[symbol]` / `symbol in agent.positions`. -/
def lookupPos : List (String × Position) → String → Option Position
  | [], _ => none
  | (k, v) :: rest, symbol => if k = symbol then some v else lookupPos rest symbol

/-- Dict write `agent.positions[symbol] = position`: replace the value if the
key is present, otherwise append (Python dicts keep insertion order). -/
def setPos : List (String × Position) → String → Position → List (String × Position)
  | [], symbol, v => [(symbol, v)]
  | (k, w) :: rest, symbol, v =>
    if k = symbol then (k, v) :: rest else (k, w) :: setPos rest symbol v

/-- Dict delete `del agent.positions[symbol]`. -/
def delPos : List (String × Position) → String → List (String × Position)
  | [], _ => []
  | (k, v) :: rest, symbol =>
    if k = symbol then delPos rest symbol else (k, v) :: delPos rest symbol

/-- The position dict built by `PaperTrader.execute_entry`:
`capital_to_use = agent.cash * size_pct`, `notional_value = capital_to_use *
leverage`, `qty = notional_value / price`, `margin_required = capital_to_use`. -/
def entryPosition (agent : TradingAgent) (symbol direction : String)
    (size_pct leverage p : ℚ) (reason : String) : Position :=
  { symbol := symbol
    direction := direction
    qty := agent.cash * size_pct * leverage / p
    entry_price := p
    leverage := leverage
    margin := agent.cash * size_pct
    notional_value := agent.cash * size_pct * leverage
    unrealized_pnl := 0
    reason := reason }

/-- The ENTRY trade-log dict appended by `PaperTrader.execute_entry`. -/
def entryTradeRec (agent : TradingAgent) (symbol direction : String)
    (size_pct leverage p : ℚ) (reason : String) : Trade :=
  Trade.entry symbol direction p (agent.cash * size_pct * leverage / p) leverage
    (agent.cash * size_pct) reason

/-- `PaperTrader.execute_entry` (`paper_trader.py`).  The `price` argument is
the result of `self.get_price(symbol)`; `none` or `0` is Python's falsy
price.  Returns the position (or `None`) together with the updated agent. -/
def execute_entry (agent : TradingAgent) (symbol direction : String)
    (size_pct leverage : ℚ) (price : Option ℚ) (reason : String) :
    Option Position × TradingAgent :=
  match price with
  | none => (none, agent)
  | some p =>
    if p = 0 then (none, agent)
    else if agent.cash * size_pct > agent.cash then (none, agent)
    else
      (some (entryPosition agent symbol direction size_pct leverage p reason),
       { agent with
           cash := agent.cash - agent.cash * size_pct
           positions := setPos agent.positions symbol
             (entryPosition agent symbol direction size_pct leverage p reason)
           trades := agent.trades ++ [entryTradeRec agent symbol direction size_pct leverage p reason] })

/-- The signed realized P&L computed by `PaperTrader.execute_exit`:
`(current − entry) * qty` for LONG, `(entry − current) * qty` otherwise. -/
def exitPnl (position : Position) (p : ℚ) : ℚ :=
  if position.direction = "LONG" then (p - position.entry_price) * position.qty
  else (position.entry_price - p) * position.qty

/-- The EXIT trade-log dict appended by `PaperTrader.execute_exit`, with
`pnl_pct = pnl / margin * 100`. -/
def exitTradeRec (position : Position) (symbol : String) (p : ℚ) (reason : String) : Trade :=
  Trade.exitRec symbol position.direction position.entry_price p position.qty
    (exitPnl position p) (exitPnl position p / position.margin * 100) reason

/-- `PaperTrader.execute_exit` (`paper_trader.py`).  Returns the EXIT trade
record (or `None`) together with the updated agent: on success the margin
plus signed P&L is credited, the position removed, the record appended. -/
def execute_exit (agent : TradingAgent) (symbol : String) (price : Option ℚ)
    (reason : String) : Option Trade × TradingAgent :=
  match lookupPos agent.positions symbol with
  | none => (none, agent)
  | some position =>
    match price with
    | none => (none, agent)
    | some p =>
      if p = 0 then (none, agent)
      else
        (some (exitTradeRec position symbol p reason),
         { agent with
             cash := agent.cash + position.margin + exitPnl position p
             positions := delPos agent.positions symbol
             trades := agent.trades ++ [exitTradeRec position symbol p reason] })

/-- The signed percentage move computed inside `PaperTrader.check_stop_loss`
and `check_take_profit`: `(current − entry) / entry * 100` for LONG and
`(entry − current) / entry * 100` otherwise. -/
def positionMovePct (position : Position) (p : ℚ) : ℚ :=
  if position.direction = "LONG" then
    (p - position.entry_price) / position.entry_price * 100
  else
    (position.entry_price - p) / position.entry_price * 100

/-- First loop of `PaperTrader.check_stop_loss`: collect `symbols_to_exit`,
skipping symbols whose price is unavailable (falsy), and selecting those with
`pnl_pct <= -stop_loss_pct * 100`. -/
def stopSymbols : List (String × Position) → (String → Option ℚ) → ℚ → List String
  | [], _, _ => []
  | (symbol, position) :: rest, prices, stop_loss_pct =>
    match prices symbol with
    | none => stopSymbols rest prices stop_loss_pct
    | some p =>
      if p = 0 then stopSymbols rest prices stop_loss_pct
      else if positionMovePct position p ≤ -stop_loss_pct * 100 then
        symbol :: stopSymbols rest prices stop_loss_pct
      else stopSymbols rest prices stop_loss_pct

/-- First loop of `PaperTrader.check_take_profit`: collect `symbols_to_exit`
with `pnl_pct >= take_profit_pct * 100`. -/
def tpSymbols : List (String × Position) → (String → Option ℚ) → ℚ → List String
  | [], _, _ => []
  | (symbol, position) :: rest, prices, take_profit_pct =>
    match prices symbol with
    | none => tpSymbols rest prices take_profit_pct
    | some p =>
      if p = 0 then tpSymbols rest prices take_profit_pct
      else if take_profit_pct * 100 ≤ positionMovePct position p then
        symbol :: tpSymbols rest prices take_profit_pct
      else tpSymbols rest prices take_profit_pct

/-- Second loop of `check_stop_loss` / `check_take_profit`: run
`execute_exit` on each collected symbol, appending the successful exit
records. -/
def exitAll (agent : TradingAgent) (symbols : List String)
    (prices : String → Option ℚ) (reason : String) : List Trade × TradingAgent :=
  match symbols with
  | [] => ([], agent)
  | s :: rest =>
    let res := execute_exit agent s (prices s) reason
    let tail := exitAll res.2 rest prices reason
    (match res.1 with
     | some t => t :: tail.1
     | none => tail.1,
     tail.2)

/-- `PaperTrader.check_stop_loss` (`paper_trader.py`). -/
def check_stop_loss (agent : TradingAgent) (prices : String → Option ℚ)
    (stop_loss_pct : ℚ) : List Trade × TradingAgent :=
  exitAll agent (stopSymbols agent.positions prices stop_loss_pct) prices "STOP_LOSS"

/-- `PaperTrader.check_take_profit` (`paper_trader.py`). -/
def check_take_profit (agent : TradingAgent) (prices : String → Option ℚ)
    (take_profit_pct : ℚ) : List Trade × TradingAgent :=
  exitAll agent (tpSymbols agent.positions prices take_profit_pct) prices "TAKE_PROFIT"

/-- The per-agent loop body of `Arena.end_race`: `for symbol in
list(agent.positions.keys()): execute_exit(agent, symbol, reason="RACE_END")`. -/
def liquidateSyms : TradingAgent → List String → (String → Option ℚ) → TradingAgent
  | agent, [], _ => agent
  | agent, s :: rest, prices => liquidateSyms (execute_exit agent s (prices s) "RACE_END").2 rest prices

/-- Round-end liquidation of one agent in `Arena.end_race`: the key list is
snapshotted before the loop. -/
def end_race_liquidate (agent : TradingAgent) (prices : String → Option ℚ) : TradingAgent :=
  liquidateSyms agent (agent.positions.map Prod.fst) prices

/-- `TradingAgent.portfolio_value` (`agent_factory.py`): cash plus locked
margin plus unrealized P&L. -/
def portfolio_value (agent : TradingAgent) : ℚ :=
  agent.cash + (agent.positions.map (fun kv => kv.2.margin)).sum
    + (agent.positions.map (fun kv => kv.2.unrealized_pnl)).sum

/-- `TradingAgent.total_pnl` (`agent_factory.py`). -/
def total_pnl (agent : TradingAgent) : ℚ :=
  portfolio_value agent - agent.starting_capital

/-- `TradingAgent.win_rate` (`agent_factory.py`): `0.0` on an empty trade
log, otherwise `winners / len(trades) * 100` where a winner is any trade
record with `t.get("pnl", 0) > 0` and the denominator counts every record,
ENTRY records included. -/
def win_rate (agent : TradingAgent) : ℚ :=
  if agent.trades = [] then 0
  else ((agent.trades.countP (fun t => decide (0 < t.pnlGetD)) : ℚ) / (agent.trades.length : ℚ)) * 100

/-- A leaderboard row of `Race.get_leaderboard` (`arena.py`); the claims only
concern the `name` and `pnl` columns, the other columns are derived
per-agent data not used by selection. -/
structure LBEntry where
  name : String
  pnl : ℚ
deriving Repr, DecidableEq

/-- Descending P&L ordering used by `leaderboard.sort(key=lambda x: x["pnl"],
reverse=True)`. -/
def lbGE (a b : LBEntry) : Prop := b.pnl ≤ a.pnl

instance : DecidableRel lbGE := fun a b => inferInstanceAs (Decidable (b.pnl ≤ a.pnl))

instance : IsTotal LBEntry lbGE := ⟨fun a b => le_total b.pnl a.pnl⟩

instance : IsTrans LBEntry lbGE := ⟨fun _ _ _ h1 h2 => le_trans h2 h1⟩

/-- `Race.get_leaderboard` (`arena.py`): one row per agent in cohort order,
then a stable sort by P&L descending (CPython's sort is stable; Mathlib's
insertion sort with this total relation is likewise stable). -/
def get_leaderboard (agents : List TradingAgent) : List LBEntry :=
  List.insertionSort lbGE (agents.map fun a => { name := a.name, pnl := total_pnl a })

/-- Python's `int()` applied to a real number: truncation toward zero. -/
def pyInt (q : ℚ) : ℤ :=
  if 0 ≤ q then ⌊q⌋ else ⌈q⌉

/-- `SURVIVAL_THRESHOLD` (`config.py`): bottom 40% get culled. -/
def SURVIVAL_THRESHOLD : ℚ := 2/5

/-- Survivor-count rule of `Arena.end_race` (`arena.py`):
`num_survivors = int(len(leaderboard) * (1 - SURVIVAL_THRESHOLD))`. -/
def num_survivors (n : ℕ) (survival_threshold : ℚ) : ℕ :=
  (pyInt ((n : ℚ) * (1 - survival_threshold))).toNat

/-- Survivor/eliminated split of `Arena.end_race`:
`survivors = leaderboard[:num_survivors]`, `eliminated =
leaderboard[num_survivors:]`. -/
def end_race_selection (agents : List TradingAgent) (survival_threshold : ℚ) :
    List LBEntry × List LBEntry :=
  let leaderboard := get_leaderboard agents
  let n := num_survivors leaderboard.length survival_threshold
  (leaderboard.take n, leaderboard.drop n)

/-- Strategy parameters touched by `StrategyMutator` (`evolution_engine.py`);
the numeric fields of `MUTABLE_PARAMS` plus `preferred_assets`. -/
structure StrategyParams where
  entry_threshold : ℚ
  stop_loss_pct : ℚ
  take_profit_pct : ℚ
  max_positions : ℚ
  position_size_pct : ℚ
  max_leverage : ℚ
  min_hold_minutes : ℚ
  preferred_assets : List String
deriving Repr, DecidableEq

/-- Names of the mutable numeric parameters (`MUTABLE_PARAMS` keys). -/
inductive ParamName where
  | entry_threshold
  | stop_loss_pct
  | take_profit_pct
  | max_positions
  | position_size_pct
  | max_leverage
  | min_hold_minutes
deriving Repr, DecidableEq

/-- Mutation mode tag of `MUTABLE_PARAMS` ("multiply" or "int"). -/
inductive ParamMode where
  | multiply
  | intMode
deriving Repr, DecidableEq

/-- `StrategyMutator.MUTABLE_PARAMS` (`evolution_engine.py`): per-field
`(min, max, mode)`. -/
def MUTABLE_PARAMS : ParamName → ℚ × ℚ × ParamMode
  | .entry_threshold => (1/20, 1/2, .multiply)
  | .stop_loss_pct => (1/200, 3/20, .multiply)
  | .take_profit_pct => (1/50, 1/4, .multiply)
  | .max_positions => (1, 5, .intMode)
  | .position_size_pct => (1/10, 1, .multiply)
  | .max_leverage => (2, 20, .multiply)
  | .min_hold_minutes => (2, 120, .intMode)

/-- Read one numeric field by name. -/
def getParam (p : StrategyParams) : ParamName → ℚ
  | .entry_threshold => p.entry_threshold
  | .stop_loss_pct => p.stop_loss_pct
  | .take_profit_pct => p.take_profit_pct
  | .max_positions => p.max_positions
  | .position_size_pct => p.position_size_pct
  | .max_leverage => p.max_leverage
  | .min_hold_minutes => p.min_hold_minutes

/-- Write one numeric field by name. -/
def setParam (p : StrategyParams) : ParamName → ℚ → StrategyParams
  | .entry_threshold, v => { p with entry_threshold := v }
  | .stop_loss_pct, v => { p with stop_loss_pct := v }
  | .take_profit_pct, v => { p with take_profit_pct := v }
  | .max_positions, v => { p with max_positions := v }
  | .position_size_pct, v => { p with position_size_pct := v }
  | .max_leverage, v => { p with max_leverage := v }
  | .min_hold_minutes, v => { p with min_hold_minutes := v }

/-- Python's `max(min_val, min(max_val, new_val))`. -/
def clamp (lo hi x : ℚ) : ℚ := max lo (min hi x)

/-- One random parameter tweak of `_mutate_conservative` /
`_mutate_aggressive`: the chosen parameter, the drawn multiplicative offset
(`random.uniform`) used in "multiply" mode, and the drawn integer delta
(`random.randint`, already scaled where applicable) used in "int" mode. -/
structure Tweak where
  param : ParamName
  mult_change : ℚ
  int_change : ℤ
deriving Repr, DecidableEq

/-- The shared loop body of `_mutate_conservative` and `_mutate_aggressive`:
propose `current * change` ("multiply" mode) or `current + change` ("int"
mode), then clamp to the field's `[min, max]`. -/
def applyTweak (p : StrategyParams) (t : Tweak) : StrategyParams :=
  setParam p t.param (clamp (MUTABLE_PARAMS t.param).1 (MUTABLE_PARAMS t.param).2.1
    (match (MUTABLE_PARAMS t.param).2.2 with
     | .multiply => getParam p t.param * (1 + t.mult_change)
     | .intMode => getParam p t.param + (t.int_change : ℚ)))

/-- `StrategyMutator._mutate_conservative`: 1–2 random tweaks, each clamped;
the random draws are passed in as the tweak list. -/
def mutate_conservative (p : StrategyParams) (tweaks : List Tweak) : StrategyParams :=
  tweaks.foldl applyTweak p

/-- `StrategyMutator._mutate_aggressive`: moderate tweaks to 3–4 random
parameters, each clamped; the random draws are passed in as the tweak list. -/
def mutate_aggressive (p : StrategyParams) (tweaks : List Tweak) : StrategyParams :=
  tweaks.foldl applyTweak p

/-- `StrategyMutator._mutate_risk`: scale `stop_loss_pct` by 0.7 or 1.3 and
`take_profit_pct` by 1.2 or 0.8 according to two coin flips — with no
clamping. -/
def mutate_risk (p : StrategyParams) (tighter tp_up : Bool) : StrategyParams :=
  let p1 := { p with stop_loss_pct :=
    if tighter then p.stop_loss_pct * (7/10) else p.stop_loss_pct * (13/10) }
  { p1 with take_profit_pct :=
    if tp_up then p1.take_profit_pct * (12/10) else p1.take_profit_pct * (8/10) }

/-- `StrategyMutator._mutate_assets`: replace `preferred_assets` with a
random sample from a random pool (the draw is passed in). -/
def mutate_assets (p : StrategyParams) (new_assets : List String) : StrategyParams :=
  { p with preferred_assets := new_assets }

/-- `StrategyMutator._mutate_time_horizon`: `max(2, int(m * 0.5))` or
`min(120, int(m * 2))` according to a coin flip. -/
def mutate_time_horizon (p : StrategyParams) (faster : Bool) : StrategyParams :=
  if faster then
    { p with min_hold_minutes := ((max 2 (pyInt (p.min_hold_minutes * (1/2))) : ℤ) : ℚ) }
  else
    { p with min_hold_minutes := ((min 120 (pyInt (p.min_hold_minutes * 2)) : ℤ) : ℚ) }

/-- `StrategyMutator._mutate_leverage`: with `extreme`, set `max_leverage`
to 20 and `position_size_pct` to 1.0; otherwise halve leverage with a floor
of 2. -/
def mutate_leverage (p : StrategyParams) (extreme : Bool) : StrategyParams :=
  if extreme then { p with max_leverage := 20, position_size_pct := 1 }
  else { p with max_leverage := max 2 (p.max_leverage * (1/2)) }

/-- The mutation categories dispatched by `StrategyMutator.mutate_agent`
(after the "random" re-draw). -/
inductive MutationType where
  | conservative
  | risk_adjust
  | asset_shift
  | time_horizon
  | leverage
  | aggressive
deriving Repr, DecidableEq

/-- The random draws consumed by one `mutate_agent` call, passed explicitly. -/
structure MutationRand where
  tweaks : List Tweak
  risk_tighter : Bool
  risk_tp_up : Bool
  new_assets : List String
  faster : Bool
deriving Repr, DecidableEq

/-- The strategy-parameter part of `StrategyMutator.mutate_agent`: dispatch
on the mutation category (the `leverage` category is called with
`extreme=True` in the source). -/
def mutate_strategy_params (mt : MutationType) (r : MutationRand)
    (p : StrategyParams) : StrategyParams :=
  match mt with
  | .conservative => mutate_conservative p r.tweaks
  | .risk_adjust => mutate_risk p r.risk_tighter r.risk_tp_up
  | .asset_shift => mutate_assets p r.new_assets
  | .time_horizon => mutate_time_horizon p r.faster
  | .leverage => mutate_leverage p true
  | .aggressive => mutate_aggressive p r.tweaks

/-- A numeric parameter field lies within its `MUTABLE_PARAMS` `[min, max]`. -/
def paramInBounds (p : StrategyParams) (n : ParamName) : Prop :=
  (MUTABLE_PARAMS n).1 ≤ getParam p n ∧ getParam p n ≤ (MUTABLE_PARAMS n).2.1

instance (p : StrategyParams) (n : ParamName) : Decidable (paramInBounds p n) :=
  inferInstanceAs (Decidable (_ ∧ _))

/-- Every numeric parameter field lies within its documented `[min, max]`. -/
def inBounds (p : StrategyParams) : Prop :=
  paramInBounds p .entry_threshold ∧ paramInBounds p .stop_loss_pct ∧
  paramInBounds p .take_profit_pct ∧ paramInBounds p .max_positions ∧
  paramInBounds p .position_size_pct ∧ paramInBounds p .max_leverage ∧
  paramInBounds p .min_hold_minutes

instance (p : StrategyParams) : Decidable (inBounds p) :=
  inferInstanceAs (Decidable (_ ∧ _))

/-- A trading signal as produced by `SignalGenerator.generate_signal`
(`paper_trader.py`): direction, strength and a diagnostic reason. -/
structure Signal where
  direction : String
  strength : ℚ
  reason : String
deriving Repr, DecidableEq

/-- An entry summary appended to `result["entries"]` in
`Arena._run_agent_cycle` (`arena.py`). -/
structure EntryRec where
  symbol : String
  direction : String
  price : ℚ
  leverage : ℚ
  reason : String
deriving Repr, DecidableEq

/-- The entry-scan loop of `Arena._run_agent_cycle` (`arena.py`): walk
`preferred_assets` in order, skip symbols already held, query the signal
generator (modelled as the oracle `signals`), require `strength ≥
entry_threshold`, request leverage `min(max_leverage, 1 + strength * 10)`,
and stop at the first successful entry. -/
def entry_scan (params : StrategyParams) (signals : String → Option Signal)
    (prices : String → Option ℚ) :
    TradingAgent → List String → TradingAgent × List EntryRec
  | agent, [] => (agent, [])
  | agent, symbol :: rest =>
    if (lookupPos agent.positions symbol).isSome then
      entry_scan params signals prices agent rest
    else
      match signals symbol with
      | none => entry_scan params signals prices agent rest
      | some sig =>
        if params.entry_threshold ≤ sig.strength then
          match execute_entry agent symbol sig.direction params.position_size_pct
              (min params.max_leverage (1 + sig.strength * 10)) (prices symbol) sig.reason with
          | (some position, agent1) =>
            (agent1,
             [{ symbol := symbol
                direction := sig.direction
                price := position.entry_price
                leverage := position.leverage
                reason := sig.reason }])
          | (none, agent1) => entry_scan params signals prices agent1 rest
        else entry_scan params signals prices agent rest

/-- The entry phase of `Arena._run_agent_cycle`: the scan runs only when
`len(agent.positions) < max_positions`. -/
def run_entry_phase (agent : TradingAgent) (params : StrategyParams)
    (signals : String → Option Signal) (prices : String → Option ℚ) :
    TradingAgent × List EntryRec :=
  if (agent.positions.length : ℚ) < params.max_positions then
    entry_scan params signals prices agent params.preferred_assets
  else (agent, [])

/-- The signed fractional move of the spec's wording for the stop-loss
condition: "(price − entry)/entry for LONG, negated for SHORT".  Stated from
the spec, to be compared with the source-derived `positionMovePct`. -/
def specSignedMove (position : Position) (p : ℚ) : ℚ :=
  if position.direction = "LONG" then (p - position.entry_price) / position.entry_price
  else -((p - position.entry_price) / position.entry_price)

/-! Concrete data used by counterexamples and witnesses. -/

/-- A fresh agent with the configured starting capital (`STARTING_CAPITAL =
1000.0` in `config.py`). -/
def wAgent : TradingAgent :=
  { name := "Harper", starting_capital := 1000, cash := 1000, positions := [], trades := [] }

/-- The position produced by a half-size 3x LONG entry on BTC-USD at 100. -/
def wPos : Position := entryPosition wAgent "BTC-USD" "LONG" (1/2) 3 100 "sig"

/-- The agent state after that entry. -/
def wAgent1 : TradingAgent :=
  { wAgent with
      cash := 500
      positions := [("BTC-USD", wPos)]
      trades := [entryTradeRec wAgent "BTC-USD" "LONG" (1/2) 3 100 "sig"] }

/-- A LONG position entered at 100, for the stop-loss scenario. -/
def wStopPos : Position :=
  { symbol := "BTC-USD", direction := "LONG", qty := 5, entry_price := 100, leverage := 1,
    margin := 500, notional_value := 500, unrealized_pnl := 0, reason := "" }

/-- An agent holding exactly that position. -/
def wStopAgent : TradingAgent :=
  { name := "S", starting_capital := 1000, cash := 500,
    positions := [("BTC-USD", wStopPos)], trades := [] }

/-- A price table quoting BTC-USD at 95. -/
def wPrices : String → Option ℚ := fun s => if s = "BTC-USD" then some 95 else none

/-- A price table on which every lookup fails. -/
def wBadPrices : String → Option ℚ := fun _ => none

/-- Strategy parameters for the entry-scan witness. -/
def wParams : StrategyParams :=
  { entry_threshold := 1/10, stop_loss_pct := 1/20, take_profit_pct := 1/10,
    max_positions := 3, position_size_pct := 1/2, max_leverage := 5,
    min_hold_minutes := 10, preferred_assets := ["BTC-USD"] }

/-- A signal oracle emitting one LONG signal of strength 1/2 on BTC-USD. -/
def wSignals : String → Option Signal :=
  fun s => if s = "BTC-USD" then some { direction := "LONG", strength := 1/2, reason := "m" } else none

/-- An agent with only a name, cash and nothing else, at the given P&L. -/
def simpleAgent (name : String) (pnl : ℚ) : TradingAgent :=
  { name := name, starting_capital := 0, cash := pnl, positions := [], trades := [] }

/-- Four agents with distinct P&L: with elimination fraction 0.4 the code
keeps `int(4 * 0.6) = 2` of them while `ceil(4 * 0.6) = 3`. -/
def cexAgents : List TradingAgent :=
  [simpleAgent "A" 4, simpleAgent "B" 3, simpleAgent "C" 2, simpleAgent "D" 1]

/-- In-bounds parameters sitting at the top of the `stop_loss_pct` and
`take_profit_pct` ranges. -/
def cexParams : StrategyParams :=
  { entry_threshold := 1/5, stop_loss_pct := 3/20, take_profit_pct := 1/4,
    max_positions := 3, position_size_pct := 1/2, max_leverage := 5,
    min_hold_minutes := 30, preferred_assets := [] }

/-- Random draws: the risk coin flips select the widening branches. -/
def cexRand : MutationRand :=
  { tweaks := [], risk_tighter := false, risk_tp_up := true, new_assets := [], faster := true }

/-! Basic facts about the dict operations. -/

theorem lookupPos_setPos_self (ps : List (String × Position)) (s : String) (v : Position) :
    lookupPos (setPos ps s v) s = some v := by
  induction ps with
  | nil => simp [setPos, lookupPos]
  | cons kv rest ih =>
    obtain ⟨k, w⟩ := kv
    by_cases h : k = s
    · simp [setPos, h, lookupPos]
    · simp [setPos, h, lookupPos, ih]

theorem length_setPos_le (ps : List (String × Position)) (s : String) (v : Position) :
    (setPos ps s v).length ≤ ps.length + 1 := by
  induction ps with
  | nil => simp [setPos]
  | cons kv rest ih =>
    obtain ⟨k, w⟩ := kv
    by_cases h : k = s
    · simp [setPos, h]
    · simp [setPos, h]
      omega

theorem lookupPos_delPos_self (ps : List (String × Position)) (s : String) :
    lookupPos (delPos ps s) s = none := by
  induction ps with
  | nil => simp [delPos, lookupPos]
  | cons kv rest ih =>
    obtain ⟨k, w⟩ := kv
    by_cases h : k = s
    · simp [delPos, h, ih]
    · simp [delPos, h, lookupPos, ih]

theorem lookupPos_delPos_ne (ps : List (String × Position)) (s' s : String) (h : s' ≠ s) :
    lookupPos (delPos ps s') s = lookupPos ps s := by
  have h2 : s ≠ s' := Ne.symm h
  induction ps with
  | nil => simp [delPos]
  | cons kv rest ih =>
    obtain ⟨k, w⟩ := kv
    by_cases hk : k = s'
    · subst hk
      simp [delPos, lookupPos, h, ih]
    · by_cases hs : k = s
      · subst hs
        simp [delPos, lookupPos, hk, h2]
      · simp [delPos, lookupPos, hk, hs, ih]

/-! Basic facts about entries and exits. -/

theorem execute_entry_some (a : TradingAgent) (sym d : String) (sz lv p : ℚ) (r : String)
    (hp : p ≠ 0) (hm : ¬ a.cash * sz > a.cash) :
    execute_entry a sym d sz lv (some p) r =
      (some (entryPosition a sym d sz lv p r),
       { a with
           cash := a.cash - a.cash * sz
           positions := setPos a.positions sym (entryPosition a sym d sz lv p r)
           trades := a.trades ++ [entryTradeRec a sym d sz lv p r] }) := by
  simp [execute_entry, hp, hm]

theorem execute_entry_snd_of_none (a : TradingAgent) (sym d : String) (sz lv : ℚ)
    (pr : Option ℚ) (r : String) (h : (execute_entry a sym d sz lv pr r).1 = none) :
    (execute_entry a sym d sz lv pr r).2 = a := by
  cases pr with
  | none => rfl
  | some p =>
    by_cases hp : p = 0
    · simp [execute_entry, hp]
    · by_cases hm : a.cash * sz > a.cash
      · simp [execute_entry, hp, hm]
      · rw [execute_entry_some a sym d sz lv p r hp hm] at h
        simp at h

theorem execute_entry_some_inv (a : TradingAgent) (sym d : String) (sz lv : ℚ)
    (pr : Option ℚ) (r : String) (position : Position) (agent' : TradingAgent)
    (h : execute_entry a sym d sz lv pr r = (some position, agent')) :
    ∃ p, pr = some p ∧ p ≠ 0 ∧ ¬ a.cash * sz > a.cash ∧
      position = entryPosition a sym d sz lv p r ∧
      agent' = { a with
                   cash := a.cash - a.cash * sz
                   positions := setPos a.positions sym (entryPosition a sym d sz lv p r)
                   trades := a.trades ++ [entryTradeRec a sym d sz lv p r] } := by
  cases pr with
  | none => simp [execute_entry] at h
  | some p =>
    by_cases hp : p = 0
    · simp [execute_entry, hp] at h
    · by_cases hm : a.cash * sz > a.cash
      · simp [execute_entry, hp, hm] at h
      · rw [execute_entry_some a sym d sz lv p r hp hm] at h
        rw [Prod.mk.injEq] at h
        obtain ⟨h1, h2⟩ := h
        exact ⟨p, rfl, hp, hm, (Option.some.inj h1).symm, h2.symm⟩

theorem execute_exit_some (a : TradingAgent) (sym : String) (p : ℚ) (r : String)
    (position : Position) (hpos : lookupPos a.positions sym = some position) (hp : p ≠ 0) :
    execute_exit a sym (some p) r =
      (some (exitTradeRec position sym p r),
       { a with
           cash := a.cash + position.margin + exitPnl position p
           positions := delPos a.positions sym
           trades := a.trades ++ [exitTradeRec position sym p r] }) := by
  simp [execute_exit, hpos, hp]

theorem execute_exit_bad_price (a : TradingAgent) (s r : String) (pr : Option ℚ)
    (hbad : pr = none ∨ pr = some 0) : execute_exit a s pr r = (none, a) := by
  rcases hbad with h | h <;> subst h <;>
    cases hl : lookupPos a.positions s <;> simp [execute_exit, hl]

theorem execute_exit_lookup_other (a : TradingAgent) (s' : String) (pr : Option ℚ)
    (r s : String) (hne : s' ≠ s) :
    lookupPos ((execute_exit a s' pr r).2).positions s = lookupPos a.positions s := by
  cases hl : lookupPos a.positions s' with
  | none => simp [execute_exit, hl]
  | some pos =>
    cases pr with
    | none => simp [execute_exit, hl]
    | some p =>
      by_cases hp : p = 0
      · simp [execute_exit, hl, hp]
      · simp [execute_exit, hl, hp, lookupPos_delPos_ne _ _ _ hne]

theorem exitAll_snd (a : TradingAgent) (s : String) (rest : List String)
    (prices : String → Option ℚ) (r : String) :
    (exitAll a (s :: rest) prices r).2
      = (exitAll (execute_exit a s (prices s) r).2 rest prices r).2 := rfl

theorem lookupPos_exitAll_not_mem (syms : List String) :
    ∀ (a : TradingAgent) (prices : String → Option ℚ) (r s : String), s ∉ syms →
      lookupPos (exitAll a syms prices r).2.positions s = lookupPos a.positions s := by
  induction syms with
  | nil => intro a prices r s _; rfl
  | cons s' rest ih =>
    intro a prices r s h
    rw [List.mem_cons, not_or] at h
    have hne : s' ≠ s := fun e => h.1 e.symm
    rw [exitAll_snd, ih _ _ _ _ h.2, execute_exit_lookup_other _ _ _ _ _ hne]

theorem not_mem_stopSymbols (ps : List (String × Position)) (prices : String → Option ℚ)
    (stop : ℚ) (s : String) (hbad : prices s = none ∨ prices s = some 0) :
    s ∉ stopSymbols ps prices stop := by
  induction ps with
  | nil => simp [stopSymbols]
  | cons kv rest ih =>
    obtain ⟨k, pos⟩ := kv
    cases hk : prices k with
    | none => simpa [stopSymbols, hk] using ih
    | some p =>
      by_cases hp : p = 0
      · simpa [stopSymbols, hk, hp] using ih
      · by_cases hc : positionMovePct pos p ≤ -(stop * 100)
        · have hred : stopSymbols ((k, pos) :: rest) prices stop
              = k :: stopSymbols rest prices stop := by
            simp [stopSymbols, hk, hp, hc]
          rw [hred, List.mem_cons, not_or]
          refine ⟨?_, ih⟩
          rintro rfl
          rw [hk] at hbad
          rcases hbad with h | h
          · exact Option.noConfusion h
          · exact hp (Option.some.inj h)
        · have hred : stopSymbols ((k, pos) :: rest) prices stop
              = stopSymbols rest prices stop := by
            simp [stopSymbols, hk, hp, hc]
          rw [hred]
          exact ih

theorem not_mem_tpSymbols (ps : List (String × Position)) (prices : String → Option ℚ)
    (take : ℚ) (s : String) (hbad : prices s = none ∨ prices s = some 0) :
    s ∉ tpSymbols ps prices take := by
  induction ps with
  | nil => simp [tpSymbols]
  | cons kv rest ih =>
    obtain ⟨k, pos⟩ := kv
    cases hk : prices k with
    | none => simpa [tpSymbols, hk] using ih
    | some p =>
      by_cases hp : p = 0
      · simpa [tpSymbols, hk, hp] using ih
      · by_cases hc : take * 100 ≤ positionMovePct pos p
        · have hred : tpSymbols ((k, pos) :: rest) prices take
              = k :: tpSymbols rest prices take := by
            simp [tpSymbols, hk, hp, hc]
          rw [hred, List.mem_cons, not_or]
          refine ⟨?_, ih⟩
          rintro rfl
          rw [hk] at hbad
          rcases hbad with h | h
          · exact Option.noConfusion h
          · exact hp (Option.some.inj h)
        · have hred : tpSymbols ((k, pos) :: rest) prices take
              = tpSymbols rest prices take := by
            simp [tpSymbols, hk, hp, hc]
          rw [hred]
          exact ih

theorem lookupPos_liquidateSyms (syms : List String) :
    ∀ (a : TradingAgent) (prices : String → Option ℚ) (s : String),
      (prices s = none ∨ prices s = some 0) →
      lookupPos (liquidateSyms a syms prices).positions s = lookupPos a.positions s := by
  induction syms with
  | nil => intro a prices s _; rfl
  | cons s' rest ih =>
    intro a prices s hbad
    show lookupPos (liquidateSyms (execute_exit a s' (prices s') "RACE_END").2 rest prices).positions s
        = lookupPos a.positions s
    by_cases hne : s' = s
    · subst hne
      rw [execute_exit_bad_price _ _ _ _ hbad]
      exact ih _ _ _ hbad
    · rw [ih _ _ _ hbad, execute_exit_lookup_other _ _ _ _ _ hne]

/-- C1: for every successful entry (`execute_entry` returns a position), the
agent's cash afterwards equals cash before minus the position's margin, the
margin equals cash before times `size_pct`, the `notional_value` equals
margin times leverage, and the quantity equals notional divided by the entry
price. -/
theorem execute_entry_accounting (agent : TradingAgent) (symbol direction reason : String)
    (size_pct leverage : ℚ) (price : Option ℚ) (position : Position) (agent' : TradingAgent)
    (h : execute_entry agent symbol direction size_pct leverage price reason
      = (some position, agent')) :
    agent'.cash = agent.cash - position.margin ∧
    position.margin = agent.cash * size_pct ∧
    position.notional_value = position.margin * leverage ∧
    position.qty = position.notional_value / position.entry_price := by
  obtain ⟨p, _, _, _, hpos, hagent⟩ :=
    execute_entry_some_inv agent symbol direction size_pct leverage price reason position agent' h
  subst hpos
  subst hagent
  exact ⟨rfl, rfl, rfl, rfl⟩

theorem execute_entry_accounting_witness :
    wAgent1.cash = wAgent.cash - wPos.margin ∧
    wPos.margin = wAgent.cash * (1/2) ∧
    wPos.notional_value = wPos.margin * 3 ∧
    wPos.qty = wPos.notional_value / wPos.entry_price :=
  execute_entry_accounting wAgent "BTC-USD" "LONG" "sig" (1/2) 3 (some 100) wPos wAgent1
    (by
      rw [execute_entry_some wAgent "BTC-USD" "LONG" (1/2) 3 100 "sig" (by norm_num)
        (by norm_num [wAgent])]
      norm_num [wAgent, wAgent1, wPos, setPos])

/-- C2: for every successful exit (open position, available nonzero price),
cash afterwards equals cash before plus margin plus realized pnl, pnl is
`(exit − entry) * qty` for LONG and the negation for SHORT, the symbol is
removed from the position map, and the appended EXIT record carries `pnl`
and `pnl_pct = pnl / margin * 100`. -/
theorem execute_exit_accounting (agent : TradingAgent) (symbol reason : String)
    (p : ℚ) (position : Position)
    (hpos : lookupPos agent.positions symbol = some position) (hp : p ≠ 0) :
    (execute_exit agent symbol (some p) reason).1 = some (exitTradeRec position symbol p reason) ∧
    (execute_exit agent symbol (some p) reason).2.cash
      = agent.cash + position.margin + exitPnl position p ∧
    exitPnl position p = (if position.direction = "LONG"
      then (p - position.entry_price) * position.qty
      else (position.entry_price - p) * position.qty) ∧
    lookupPos (execute_exit agent symbol (some p) reason).2.positions symbol = none ∧
    (execute_exit agent symbol (some p) reason).2.trades
      = agent.trades ++ [exitTradeRec position symbol p reason] ∧
    Trade.pnlOpt (exitTradeRec position symbol p reason) = some (exitPnl position p) ∧
    Trade.pnlPctOpt (exitTradeRec position symbol p reason)
      = some (exitPnl position p / position.margin * 100) := by
  rw [execute_exit_some agent symbol p reason position hpos hp]
  refine ⟨rfl, rfl, rfl, ?_, rfl, rfl, rfl⟩
  exact lookupPos_delPos_self agent.positions symbol

theorem execute_exit_accounting_witness :
    (execute_exit wAgent1 "BTC-USD" (some 110) "tp").2.cash
      = wAgent1.cash + wPos.margin + exitPnl wPos 110 ∧
    lookupPos (execute_exit wAgent1 "BTC-USD" (some 110) "tp").2.positions "BTC-USD" = none :=
  ⟨(execute_exit_accounting wAgent1 "BTC-USD" "tp" 110 wPos (by rfl) (by norm_num)).2.1,
   (execute_exit_accounting wAgent1 "BTC-USD" "tp" 110 wPos (by rfl) (by norm_num)).2.2.2.1⟩

/-- C7: when the computed margin `cash * size_pct` exceeds the agent's cash,
`execute_entry` fails: it returns no position and the agent's state (cash,
positions, trade log) is entirely unchanged. -/
theorem execute_entry_insufficient_margin (agent : TradingAgent)
    (symbol direction reason : String) (size_pct leverage : ℚ) (price : Option ℚ)
    (h : agent.cash * size_pct > agent.cash) :
    execute_entry agent symbol direction size_pct leverage price reason = (none, agent) := by
  cases price with
  | none => rfl
  | some p =>
    by_cases hp : p = 0
    · simp [execute_entry, hp]
    · simp [execute_entry, hp, h]

theorem execute_entry_insufficient_margin_witness :
    execute_entry wAgent "BTC-USD" "LONG" 2 1 (some 100) "r" = (none, wAgent) :=
  execute_entry_insufficient_margin wAgent "BTC-USD" "LONG" "r" 2 1 (some 100) (by norm_num [wAgent])

/-- C8: opening a LONG position at price p and exiting at the same price p
yields realized pnl exactly 0 and restores cash to its pre-entry value (the
rational model is exact, so the float-tolerance version follows a fortiori). -/
theorem round_trip_pnl_zero (agent : TradingAgent) (symbol reason1 reason2 : String)
    (size_pct leverage p : ℚ) (hm : agent.cash * size_pct ≤ agent.cash) (hp : p ≠ 0) :
    ((execute_exit (execute_entry agent symbol "LONG" size_pct leverage (some p) reason1).2
        symbol (some p) reason2).2).cash = agent.cash ∧
    ∃ trade,
      (execute_exit (execute_entry agent symbol "LONG" size_pct leverage (some p) reason1).2
        symbol (some p) reason2).1 = some trade ∧ Trade.pnlGetD trade = 0 := by
  have hm' : ¬ agent.cash * size_pct > agent.cash := not_lt.2 hm
  rw [execute_entry_some agent symbol "LONG" size_pct leverage p reason1 hp hm']
  have hlook : lookupPos
      (setPos agent.positions symbol (entryPosition agent symbol "LONG" size_pct leverage p reason1))
      symbol = some (entryPosition agent symbol "LONG" size_pct leverage p reason1) :=
    lookupPos_setPos_self agent.positions symbol _
  have hpnl : exitPnl (entryPosition agent symbol "LONG" size_pct leverage p reason1) p = 0 := by
    simp [exitPnl, entryPosition]
  constructor
  · rw [execute_exit_some _ symbol p reason2 _ hlook hp]
    show agent.cash - agent.cash * size_pct
        + (entryPosition agent symbol "LONG" size_pct leverage p reason1).margin
        + exitPnl (entryPosition agent symbol "LONG" size_pct leverage p reason1) p = agent.cash
    rw [hpnl]
    show agent.cash - agent.cash * size_pct + agent.cash * size_pct + 0 = agent.cash
    ring
  · refine ⟨exitTradeRec (entryPosition agent symbol "LONG" size_pct leverage p reason1) symbol p reason2, ?_, ?_⟩
    · rw [execute_exit_some _ symbol p reason2 _ hlook hp]
    · simp [exitTradeRec, Trade.pnlGetD, hpnl]

theorem round_trip_pnl_zero_witness :
    ((execute_exit (execute_entry wAgent "BTC-USD" "LONG" (1/2) 3 (some 100) "in").2
        "BTC-USD" (some 100) "out").2).cash = wAgent.cash :=
  (round_trip_pnl_zero wAgent "BTC-USD" "in" "out" (1/2) 3 100 (by norm_num [wAgent]) (by norm_num)).1

/-- C9: when the price lookup for a symbol is unavailable (None or zero),
`execute_exit` on that symbol returns None and leaves the agent entirely
unchanged, and the open position survives `check_stop_loss`,
`check_take_profit` and the round-end liquidation loop, all of which route
through `execute_exit`. -/
theorem exit_unavailable_price_noop (agent : TradingAgent) (s reason : String)
    (position : Position) (prices : String → Option ℚ) (stop take : ℚ)
    (hpos : lookupPos agent.positions s = some position)
    (hbad : prices s = none ∨ prices s = some 0) :
    execute_exit agent s (prices s) reason = (none, agent) ∧
    lookupPos (check_stop_loss agent prices stop).2.positions s = some position ∧
    lookupPos (check_take_profit agent prices take).2.positions s = some position ∧
    lookupPos (end_race_liquidate agent prices).positions s = some position := by
  refine ⟨execute_exit_bad_price agent s reason _ hbad, ?_, ?_, ?_⟩
  · rw [check_stop_loss,
      lookupPos_exitAll_not_mem _ _ _ _ _ (not_mem_stopSymbols agent.positions prices stop s hbad),
      hpos]
  · rw [check_take_profit,
      lookupPos_exitAll_not_mem _ _ _ _ _ (not_mem_tpSymbols agent.positions prices take s hbad),
      hpos]
  · rw [end_race_liquidate, lookupPos_liquidateSyms _ _ _ _ hbad, hpos]

theorem exit_unavailable_price_noop_witness :
    execute_exit wAgent1 "BTC-USD" (wBadPrices "BTC-USD") "x" = (none, wAgent1) ∧
    lookupPos (end_race_liquidate wAgent1 wBadPrices).positions "BTC-USD" = some wPos :=
  ⟨(exit_unavailable_price_noop wAgent1 "BTC-USD" "x" wPos wBadPrices (1/20) (1/10)
      (by rfl) (Or.inl rfl)).1,
   (exit_unavailable_price_noop wAgent1 "BTC-USD" "x" wPos wBadPrices (1/20) (1/10)
      (by rfl) (Or.inl rfl)).2.2.2⟩

theorem bounds_le (n : ParamName) : (MUTABLE_PARAMS n).1 ≤ (MUTABLE_PARAMS n).2.1 := by
  cases n <;> norm_num [MUTABLE_PARAMS]

theorem clamp_mem (lo hi x : ℚ) (h : lo ≤ hi) : lo ≤ clamp lo hi x ∧ clamp lo hi x ≤ hi :=
  ⟨le_max_left _ _, max_le h (min_le_left _ _)⟩

theorem getParam_setParam (p : StrategyParams) (m n : ParamName) (v : ℚ) :
    getParam (setParam p m v) n = if n = m then v else getParam p n := by
  cases m <;> cases n <;> simp [getParam, setParam]

theorem inBounds_iff (p : StrategyParams) : inBounds p ↔ ∀ n, paramInBounds p n := by
  constructor
  · rintro ⟨h1, h2, h3, h4, h5, h6, h7⟩ n
    cases n <;> assumption
  · intro h
    exact ⟨h _, h _, h _, h _, h _, h _, h _⟩

theorem applyTweak_inBounds (p : StrategyParams) (t : Tweak) (hp : inBounds p) :
    inBounds (applyTweak p t) := by
  rw [inBounds_iff] at hp ⊢
  intro n
  unfold applyTweak paramInBounds
  rw [getParam_setParam]
  by_cases h : n = t.param
  · rw [if_pos h]
    subst h
    exact clamp_mem _ _ _ (bounds_le t.param)
  · rw [if_neg h]
    exact hp n

theorem foldl_applyTweak_inBounds (ts : List Tweak) :
    ∀ p : StrategyParams, inBounds p → inBounds (ts.foldl applyTweak p) := by
  induction ts with
  | nil => intro p hp; exact hp
  | cons t ts ih =>
    intro p hp
    exact ih _ (applyTweak_inBounds p t hp)

theorem getParam_mutate_assets (p : StrategyParams) (a : List String) (n : ParamName) :
    getParam (mutate_assets p a) n = getParam p n := by
  cases n <;> rfl

theorem mutate_time_horizon_inBounds (p : StrategyParams) (faster : Bool)
    (hp : inBounds p) : inBounds (mutate_time_horizon p faster) := by
  rw [inBounds_iff] at hp ⊢
  have hm := hp ParamName.min_hold_minutes
  rw [paramInBounds] at hm
  have hm1 : (2 : ℚ) ≤ p.min_hold_minutes := hm.1
  have hm2 : p.min_hold_minutes ≤ 120 := hm.2
  intro n
  cases faster
  · cases n
    case min_hold_minutes =>
      rw [paramInBounds]
      constructor
      · show (2 : ℚ) ≤ ((min 120 (pyInt (p.min_hold_minutes * 2)) : ℤ) : ℚ)
        have hx : (2 : ℤ) ≤ min 120 (pyInt (p.min_hold_minutes * 2)) := by
          refine le_min (by norm_num) ?_
          rw [pyInt, if_pos (by linarith)]
          rw [Int.le_floor]
          push_cast
          linarith
        exact_mod_cast hx
      · show ((min 120 (pyInt (p.min_hold_minutes * 2)) : ℤ) : ℚ) ≤ 120
        have hx : min 120 (pyInt (p.min_hold_minutes * 2)) ≤ (120 : ℤ) := min_le_left _ _
        exact_mod_cast hx
    all_goals exact hp _
  · cases n
    case min_hold_minutes =>
      rw [paramInBounds]
      constructor
      · show (2 : ℚ) ≤ ((max 2 (pyInt (p.min_hold_minutes * (1/2))) : ℤ) : ℚ)
        have hx : (2 : ℤ) ≤ max 2 (pyInt (p.min_hold_minutes * (1/2))) := le_max_left _ _
        exact_mod_cast hx
      · show ((max 2 (pyInt (p.min_hold_minutes * (1/2))) : ℤ) : ℚ) ≤ 120
        have hx : max 2 (pyInt (p.min_hold_minutes * (1/2))) ≤ (120 : ℤ) := by
          refine max_le (by norm_num) ?_
          rw [pyInt, if_pos (by linarith)]
          calc ⌊p.min_hold_minutes * (1/2)⌋ ≤ ⌊(120 : ℚ)⌋ :=
                Int.floor_le_floor (by linarith)
            _ = 120 := by norm_num
        exact_mod_cast hx
    all_goals exact hp _

theorem mutate_leverage_extreme_inBounds (p : StrategyParams) (hp : inBounds p) :
    inBounds (mutate_leverage p true) := by
  rw [inBounds_iff] at hp ⊢
  intro n
  cases n
  case max_leverage =>
    rw [paramInBounds]
    constructor
    · show (2 : ℚ) ≤ 20
      norm_num
    · show (20 : ℚ) ≤ 20
      norm_num
  case position_size_pct =>
    rw [paramInBounds]
    constructor
    · show (1/10 : ℚ) ≤ 1
      norm_num
    · show (1 : ℚ) ≤ 1
      norm_num
  all_goals exact hp _

/-- C4 (amended): for every mutation category of
`StrategyMutator.mutate_agent` except `risk_adjust`, and every in-bounds
input parameter set and any random draws, every numeric field of the
returned parameters stays within its documented `[min, max]`; clamping (or
a hard-coded in-range value) is always used instead of rejection.  The
`risk_adjust` category rescales `stop_loss_pct` / `take_profit_pct` without
clamping and can leave the bound table (see the counterexample). -/
theorem mutate_params_in_bounds (mt : MutationType) (r : MutationRand) (p : StrategyParams)
    (hp : inBounds p) (hmt : mt ≠ MutationType.risk_adjust) :
    inBounds (mutate_strategy_params mt r p) := by
  cases mt with
  | conservative => exact foldl_applyTweak_inBounds r.tweaks p hp
  | risk_adjust => exact absurd rfl hmt
  | asset_shift =>
    rw [inBounds_iff] at hp ⊢
    intro n
    show paramInBounds (mutate_assets p r.new_assets) n
    rw [paramInBounds, getParam_mutate_assets]
    exact hp n
  | time_horizon => exact mutate_time_horizon_inBounds p r.faster hp
  | leverage => exact mutate_leverage_extreme_inBounds p hp
  | aggressive => exact foldl_applyTweak_inBounds r.tweaks p hp

theorem mutate_params_in_bounds_witness :
    inBounds (mutate_strategy_params MutationType.leverage cexRand cexParams) :=
  mutate_params_in_bounds MutationType.leverage cexRand cexParams
    (by norm_num [inBounds, paramInBounds, getParam, MUTABLE_PARAMS, cexParams])
    (by simp)

/-- C4 counterexample: starting from in-bounds parameters with
`stop_loss_pct` at its maximum 0.15, the `risk_adjust` category with the
widening coin flip returns `stop_loss_pct = 0.195 > 0.15` (and
`take_profit_pct = 0.3 > 0.25`): the claimed universal clamping fails. -/
theorem mutate_risk_escapes_bounds :
    inBounds cexParams ∧
    ¬ inBounds (mutate_strategy_params MutationType.risk_adjust cexRand cexParams) := by
  constructor
  · norm_num [inBounds, paramInBounds, getParam, MUTABLE_PARAMS, cexParams]
  · intro h
    rw [inBounds_iff] at h
    have hs := h ParamName.stop_loss_pct
    rw [paramInBounds] at hs
    have h2 := hs.2
    norm_num [mutate_strategy_params, mutate_risk, getParam, MUTABLE_PARAMS, cexParams,
      cexRand] at h2

theorem movePct_iff_signedMove (pos : Position) (q st : ℚ) :
    (positionMovePct pos q ≤ -st * 100) ↔ specSignedMove pos q ≤ -st := by
  have h : positionMovePct pos q = specSignedMove pos q * 100 := by
    unfold positionMovePct specSignedMove
    split_ifs with hd
    · rfl
    · ring
  rw [h]
  constructor <;> intro hle <;> linarith

/-- C5: a LONG position entered at 100 with `stop_loss_pct = 0.05` is forced
out by `check_stop_loss` exactly when the mark price is at most 95 (so it
exits at 95, not at 96), and in general the stop trigger compares the signed
fractional move (`(price − entry)/entry` for LONG, negated for SHORT)
against `−stop_loss_pct`. -/
theorem check_stop_loss_spec (agent : TradingAgent) (s : String) (position : Position)
    (prices : String → Option ℚ) (p : ℚ)
    (hps : agent.positions = [(s, position)])
    (hdir : position.direction = "LONG")
    (hentry : position.entry_price = 100)
    (hprice : prices s = some p) (hp : 0 < p) :
    (((check_stop_loss agent prices (1/20)).2.positions = []) ↔ p ≤ 95) ∧
    (∀ (pos : Position) (q st : ℚ),
      (positionMovePct pos q ≤ -st * 100) ↔ specSignedMove pos q ≤ -st) := by
  have hp0 : p ≠ 0 := ne_of_gt hp
  have hlookup : lookupPos agent.positions s = some position := by
    rw [hps]
    simp [lookupPos]
  have hmove : positionMovePct position p = p - 100 := by
    simp only [positionMovePct, hdir, hentry, if_true]
    exact div_mul_cancel₀ _ (by norm_num)
  refine ⟨?_, fun pos q st => movePct_iff_signedMove pos q st⟩
  by_cases hc : p ≤ 95
  · have hcond : positionMovePct position p ≤ -(1/20 : ℚ) * 100 := by
      rw [hmove]
      linarith
    have hsyms : stopSymbols agent.positions prices (1/20) = [s] := by
      rw [hps]
      simp only [stopSymbols, hprice]
      rw [if_neg hp0, if_pos hcond]
    have hfinal : (check_stop_loss agent prices (1/20)).2.positions = [] := by
      rw [check_stop_loss, hsyms, exitAll_snd, hprice,
        execute_exit_some agent s p "STOP_LOSS" position hlookup hp0]
      show delPos agent.positions s = []
      rw [hps]
      simp [delPos]
    rw [hfinal]
    simp [hc]
  · have hcond : ¬ (positionMovePct position p ≤ -(1/20 : ℚ) * 100) := by
      rw [hmove]
      intro hx
      exact hc (by linarith)
    have hsyms : stopSymbols agent.positions prices (1/20) = [] := by
      rw [hps]
      simp only [stopSymbols, hprice]
      rw [if_neg hp0, if_neg hcond]
    have hfinal : (check_stop_loss agent prices (1/20)).2.positions = [(s, position)] := by
      rw [check_stop_loss, hsyms]
      exact hps
    rw [hfinal]
    simp [hc]

theorem check_stop_loss_spec_witness :
    ((check_stop_loss wStopAgent wPrices (1/20)).2.positions = [] ↔ (95 : ℚ) ≤ 95) :=
  (check_stop_loss_spec wStopAgent "BTC-USD" wStopPos wPrices 95 rfl rfl rfl
    (by rfl) (by norm_num)).1

/-- C10: `win_rate` is total — it returns 0 on an empty trade log, and
otherwise equals 100 times the count of trade records with pnl > 0 divided
by the count of all trade records (the denominator includes ENTRY records,
whose missing pnl reads as the default 0), so it always lies in [0, 100]. -/
theorem win_rate_spec (agent : TradingAgent) :
    (agent.trades = [] → win_rate agent = 0) ∧
    (agent.trades ≠ [] →
      win_rate agent
        = 100 * ((agent.trades.countP (fun t => decide (0 < t.pnlGetD)) : ℚ))
            / (agent.trades.length : ℚ)) ∧
    (∀ (symbol direction : String) (price qty leverage margin : ℚ) (reason : String),
      Trade.pnlGetD (Trade.entry symbol direction price qty leverage margin reason) = 0) ∧
    0 ≤ win_rate agent ∧ win_rate agent ≤ 100 := by
  by_cases he : agent.trades = []
  · refine ⟨fun _ => by simp [win_rate, he], fun h => absurd he h, fun _ _ _ _ _ _ _ => rfl, ?_, ?_⟩
    · simp [win_rate, he]
    · simp [win_rate, he]
  · have hlen : (0 : ℚ) < (agent.trades.length : ℚ) := by
      exact_mod_cast List.length_pos.2 he
    have hcle : ((agent.trades.countP (fun t => decide (0 < t.pnlGetD)) : ℚ))
        ≤ (agent.trades.length : ℚ) := by
      exact_mod_cast List.countP_le_length _
    have hc0 : (0 : ℚ) ≤ ((agent.trades.countP (fun t => decide (0 < t.pnlGetD)) : ℚ)) := by
      positivity
    have hwr : win_rate agent
        = ((agent.trades.countP (fun t => decide (0 < t.pnlGetD)) : ℚ)
            / (agent.trades.length : ℚ)) * 100 := by
      simp [win_rate, he]
    refine ⟨fun h => absurd h he, fun _ => ?_, fun _ _ _ _ _ _ _ => rfl, ?_, ?_⟩
    · rw [hwr]
      ring
    · rw [hwr]
      positivity
    · rw [hwr]
      have hdiv : (agent.trades.countP (fun t => decide (0 < t.pnlGetD)) : ℚ)
          / (agent.trades.length : ℚ) ≤ 1 := (div_le_one hlen).2 hcle
      linarith

theorem win_rate_spec_witness : 0 ≤ win_rate wAgent ∧ win_rate wAgent ≤ 100 :=
  ⟨(win_rate_spec wAgent).2.2.2.1, (win_rate_spec wAgent).2.2.2.2⟩

/-- C3 (amended): at round end, with elimination fraction f ∈ [0,1], exactly
`int(N * (1 − f))` agents — integer truncation, i.e. the floor, not the
ceiling — are marked survivors, the rest are eliminated, and every
survivor's pnl is ≥ every eliminated agent's pnl. -/
theorem end_race_selection_spec (agents : List TradingAgent) (f : ℚ)
    (h0 : 0 ≤ f) (h1 : f ≤ 1) :
    (end_race_selection agents f).1.length
        = (⌊(agents.length : ℚ) * (1 - f)⌋).toNat ∧
    (end_race_selection agents f).1.length + (end_race_selection agents f).2.length
        = agents.length ∧
    ∀ s ∈ (end_race_selection agents f).1, ∀ e ∈ (end_race_selection agents f).2,
      e.pnl ≤ s.pnl := by
  have hlb_len : (get_leaderboard agents).length = agents.length := by
    rw [get_leaderboard, List.length_insertionSort, List.length_map]
  have hq : (0 : ℚ) ≤ (agents.length : ℚ) * (1 - f) :=
    mul_nonneg (Nat.cast_nonneg _) (by linarith)
  have hpy : pyInt (((get_leaderboard agents).length : ℚ) * (1 - f))
      = ⌊(agents.length : ℚ) * (1 - f)⌋ := by
    rw [hlb_len, pyInt, if_pos hq]
  have hfloor_le : ⌊(agents.length : ℚ) * (1 - f)⌋ ≤ (agents.length : ℤ) := by
    have hle : (agents.length : ℚ) * (1 - f) ≤ (agents.length : ℚ) := by
      nlinarith [Nat.cast_nonneg (α := ℚ) agents.length]
    calc ⌊(agents.length : ℚ) * (1 - f)⌋ ≤ ⌊((agents.length : ℕ) : ℚ)⌋ :=
          Int.floor_le_floor hle
      _ = (agents.length : ℤ) := Int.floor_natCast _
  have hn_eq : num_survivors (get_leaderboard agents).length f
      = (⌊(agents.length : ℚ) * (1 - f)⌋).toNat := by
    rw [num_survivors, hpy]
  have hn_le : num_survivors (get_leaderboard agents).length f
      ≤ (get_leaderboard agents).length := by
    rw [hn_eq, hlb_len]
    exact Int.toNat_le.2 hfloor_le
  have h1eq : (end_race_selection agents f).1
      = (get_leaderboard agents).take (num_survivors (get_leaderboard agents).length f) := rfl
  have h2eq : (end_race_selection agents f).2
      = (get_leaderboard agents).drop (num_survivors (get_leaderboard agents).length f) := rfl
  refine ⟨?_, ?_, ?_⟩
  · rw [h1eq, List.length_take, min_eq_left hn_le, hn_eq]
  · rw [h1eq, h2eq, List.length_take, List.length_drop]
    have h3 := hn_le
    have h4 := hlb_len
    omega
  · intro s hs e he
    rw [h1eq] at hs
    rw [h2eq] at he
    have hsorted : List.Pairwise lbGE (get_leaderboard agents) :=
      List.sorted_insertionSort lbGE _
    rw [← List.take_append_drop (num_survivors (get_leaderboard agents).length f)
      (get_leaderboard agents)] at hsorted
    exact (List.pairwise_append.1 hsorted).2.2 s hs e he

theorem end_race_selection_spec_witness :
    (end_race_selection cexAgents (2/5)).1.length
      = (⌊(cexAgents.length : ℚ) * (1 - 2/5)⌋).toNat :=
  (end_race_selection_spec cexAgents (2/5) (by norm_num) (by norm_num)).1

/-- C3 counterexample: with 4 agents and the configured elimination fraction
0.4, the code keeps `int(4 * 0.6) = 2` survivors while the claimed
`ceil(4 * 0.6)` is 3. -/
theorem end_race_ceil_refuted :
    ¬ ((end_race_selection cexAgents SURVIVAL_THRESHOLD).1.length
        = (⌈(cexAgents.length : ℚ) * (1 - SURVIVAL_THRESHOLD)⌉).toNat) := by
  have hlen : (get_leaderboard cexAgents).length = 4 := by
    rw [get_leaderboard, List.length_insertionSort, List.length_map]
    rfl
  have hns : num_survivors (get_leaderboard cexAgents).length SURVIVAL_THRESHOLD = 2 := by
    rw [hlen, num_survivors, SURVIVAL_THRESHOLD, pyInt, if_pos (by norm_num)]
    rw [show (((4 : ℕ) : ℚ)) = (4 : ℚ) by norm_num]
    have h : (⌊(4 : ℚ) * (1 - 2/5)⌋ : ℤ) = 2 := by norm_num [Int.floor_eq_iff]
    rw [h]
    rfl
  have h1 : (end_race_selection cexAgents SURVIVAL_THRESHOLD).1.length = 2 := by
    show ((get_leaderboard cexAgents).take
      (num_survivors (get_leaderboard cexAgents).length SURVIVAL_THRESHOLD)).length = 2
    rw [hns, List.length_take, hlen]
    omega
  have hlen4 : cexAgents.length = 4 := rfl
  have h2 : (⌈(cexAgents.length : ℚ) * (1 - SURVIVAL_THRESHOLD)⌉).toNat = 3 := by
    rw [hlen4, SURVIVAL_THRESHOLD]
    have h : (⌈(4 : ℚ) * (1 - 2/5)⌉ : ℤ) = 3 := by norm_num [Int.ceil_eq_iff]
    rw [show (((4 : ℕ) : ℚ)) = (4 : ℚ) by norm_num, h]
    rfl
  rw [h1, h2]
  omega

theorem entry_scan_spec (params : StrategyParams) (signals : String → Option Signal)
    (prices : String → Option ℚ) :
    ∀ (syms : List String) (agent : TradingAgent),
      (entry_scan params signals prices agent syms).2.length ≤ 1 ∧
      (entry_scan params signals prices agent syms).1.positions.length
        ≤ agent.positions.length + 1 ∧
      ∀ e ∈ (entry_scan params signals prices agent syms).2,
        lookupPos agent.positions e.symbol = none ∧
        ∃ sig, signals e.symbol = some sig ∧ params.entry_threshold ≤ sig.strength ∧
          e.leverage = min params.max_leverage (1 + sig.strength * 10) := by
  intro syms
  induction syms with
  | nil =>
    intro agent
    refine ⟨by simp [entry_scan], by simp [entry_scan], ?_⟩
    intro e he
    simp [entry_scan] at he
  | cons symbol rest ih =>
    intro agent
    by_cases hheld : (lookupPos agent.positions symbol).isSome = true
    · have hred : entry_scan params signals prices agent (symbol :: rest)
          = entry_scan params signals prices agent rest := by
        simp [entry_scan, hheld]
      rw [hred]
      exact ih agent
    · have hnone : lookupPos agent.positions symbol = none :=
        Option.not_isSome_iff_eq_none.1 hheld
      cases hsig : signals symbol with
      | none =>
        have hred : entry_scan params signals prices agent (symbol :: rest)
            = entry_scan params signals prices agent rest := by
          simp [entry_scan, hheld, hsig]
        rw [hred]
        exact ih agent
      | some sig =>
        by_cases hth : params.entry_threshold ≤ sig.strength
        · cases hee : execute_entry agent symbol sig.direction params.position_size_pct
              (min params.max_leverage (1 + sig.strength * 10)) (prices symbol) sig.reason with
          | mk fst snd =>
            cases fst with
            | none =>
              have h1 : (execute_entry agent symbol sig.direction params.position_size_pct
                  (min params.max_leverage (1 + sig.strength * 10)) (prices symbol)
                  sig.reason).1 = none := by rw [hee]
              have hsnd := execute_entry_snd_of_none agent symbol sig.direction
                params.position_size_pct (min params.max_leverage (1 + sig.strength * 10))
                (prices symbol) sig.reason h1
              rw [hee] at hsnd
              have hsnd2 : snd = agent := hsnd
              have hred : entry_scan params signals prices agent (symbol :: rest)
                  = entry_scan params signals prices snd rest := by
                simp [entry_scan, hheld, hsig, hth, hee]
              rw [hred, hsnd2]
              exact ih agent
            | some position =>
              have hred : entry_scan params signals prices agent (symbol :: rest)
                  = (snd, [{ symbol := symbol
                             direction := sig.direction
                             price := position.entry_price
                             leverage := position.leverage
                             reason := sig.reason }]) := by
                simp [entry_scan, hheld, hsig, hth, hee]
              rw [hred]
              obtain ⟨p, hpr, hp, hm, hpos, hagent⟩ :=
                execute_entry_some_inv _ _ _ _ _ _ _ _ _ hee
              refine ⟨by simp, ?_, ?_⟩
              · rw [hagent]
                exact length_setPos_le agent.positions symbol _
              · intro e he
                simp only [List.mem_singleton] at he
                subst he
                refine ⟨hnone, sig, hsig, hth, ?_⟩
                rw [hpos]
                rfl
        · have hred : entry_scan params signals prices agent (symbol :: rest)
              = entry_scan params signals prices agent rest := by
            simp [entry_scan, hheld, hsig, hth]
          rw [hred]
          exact ih agent

/-- C6: the entry phase of a per-agent cycle scans only when the open
position count is below `max_positions`, records at most one entry (the scan
stops at the first successful entry, so the position count grows by at most
one per cycle), skips symbols already held, and every recorded entry comes
from a qualifying signal with requested leverage
`min(max_leverage, 1 + strength * 10)`. -/
theorem run_entry_phase_spec (agent : TradingAgent) (params : StrategyParams)
    (signals : String → Option Signal) (prices : String → Option ℚ) :
    (run_entry_phase agent params signals prices).2.length ≤ 1 ∧
    (run_entry_phase agent params signals prices).1.positions.length
      ≤ agent.positions.length + 1 ∧
    (¬ ((agent.positions.length : ℚ) < params.max_positions) →
      run_entry_phase agent params signals prices = (agent, [])) ∧
    ∀ e ∈ (run_entry_phase agent params signals prices).2,
      lookupPos agent.positions e.symbol = none ∧
      ∃ sig, signals e.symbol = some sig ∧ params.entry_threshold ≤ sig.strength ∧
        e.leverage = min params.max_leverage (1 + sig.strength * 10) := by
  by_cases hcap : (agent.positions.length : ℚ) < params.max_positions
  · have hred : run_entry_phase agent params signals prices
        = entry_scan params signals prices agent params.preferred_assets := by
      simp [run_entry_phase, hcap]
    rw [hred]
    obtain ⟨h1, h2, h3⟩ := entry_scan_spec params signals prices params.preferred_assets agent
    exact ⟨h1, h2, fun hc => absurd hcap hc, h3⟩
  · have hred : run_entry_phase agent params signals prices = (agent, []) := by
      simp [run_entry_phase, hcap]
    rw [hred]
    refine ⟨by simp, by simp, fun _ => rfl, ?_⟩
    intro e he
    simp at he

theorem run_entry_phase_spec_witness :
    (run_entry_phase wAgent wParams wSignals wPrices).2.length ≤ 1 ∧
    (run_entry_phase wAgent wParams wSignals wPrices).1.positions.length
      ≤ wAgent.positions.length + 1 :=
  ⟨(run_entry_phase_spec wAgent wParams wSignals wPrices).1,
   (run_entry_phase_spec wAgent wParams wSignals wPrices).2.1⟩

end TradingArena
